import Mathlib

/-!
Verification development for the tlspage repository: the key-pinned
hostname scheme, CSR validation, the cert cache, the validation-record
store, the DNS backend lookup, and the ACME orchestration, shallowly
embedded from the Go source.

Bytes are modelled as `Nat` values (< 256); machine words are `Nat`
with explicit reduction mod 2^32 where the source wraps.
-/

deriving instance DecidableEq for Except

namespace TLSPage

/-! ## SHA-256 (crypto/sha256), executable over byte lists -/

def w32 (x : Nat) : Nat := x % 4294967296

def rotr (n x : Nat) : Nat := w32 ((x >>> n) ||| (x <<< (32 - n)))

def bsig0 (x : Nat) : Nat := (rotr 2 x) ^^^ (rotr 13 x) ^^^ (rotr 22 x)

def bsig1 (x : Nat) : Nat := (rotr 6 x) ^^^ (rotr 11 x) ^^^ (rotr 25 x)

def ssig0 (x : Nat) : Nat := (rotr 7 x) ^^^ (rotr 18 x) ^^^ (x >>> 3)

def ssig1 (x : Nat) : Nat := (rotr 17 x) ^^^ (rotr 19 x) ^^^ (x >>> 10)

def ch (x y z : Nat) : Nat := (x &&& y) ^^^ ((x ^^^ 4294967295) &&& z)

def maj (x y z : Nat) : Nat := (x &&& y) ^^^ (x &&& z) ^^^ (y &&& z)

def sha256K : List Nat :=
  [1116352408, 1899447441, 3049323471, 3921009573, 961987163, 1508970993,
   2453635748, 2870763221, 3624381080, 310598401, 607225278, 1426881987,
   1925078388, 2162078206, 2614888103, 3248222580, 3835390401, 4022224774,
   264347078, 604807628, 770255983, 1249150122, 1555081692, 1996064986,
   2554220882, 2821834349, 2952996808, 3210313671, 3336571891, 3584528711,
   113926993, 338241895, 666307205, 773529912, 1294757372, 1396182291,
   1695183700, 1986661051, 2177026350, 2456956037, 2730485921, 2820302411,
   3259730800, 3345764771, 3516065817, 3600352804, 4094571909, 275423344,
   430227734, 506948616, 659060556, 883997877, 958139571, 1322822218,
   1537002063, 1747873779, 1955562222, 2024104815, 2227730452, 2361852424,
   2428436474, 2756734187, 3204031479, 3329325298]

def sha256H0 : List Nat :=
  [1779033703, 3144134277, 1013904242, 2773480762,
   1359893119, 2600822924, 528734635, 1541459225]

def be64 (n : Nat) : List Nat :=
  [(n >>> 56) &&& 255, (n >>> 48) &&& 255, (n >>> 40) &&& 255,
   (n >>> 32) &&& 255, (n >>> 24) &&& 255, (n >>> 16) &&& 255,
   (n >>> 8) &&& 255, n &&& 255]

def sha256Pad (msg : List Nat) : List Nat :=
  let l := msg.length
  msg ++ 0x80 :: List.replicate ((119 - (l % 64)) % 64) 0 ++ be64 (8 * l)

def chunks64Go : Nat → List Nat → List (List Nat)
  | 0, _ => []
  | _, [] => []
  | fuel + 1, l => l.take 64 :: chunks64Go fuel (l.drop 64)

/-- Split a byte list into 64-byte blocks. The fuel argument only bounds
the recursion; `l.length + 1` always suffices since each step consumes at
least one byte of a nonempty list. -/
def chunks64 (l : List Nat) : List (List Nat) :=
  chunks64Go (l.length + 1) l

def toWords : List Nat → List Nat
  | b0 :: b1 :: b2 :: b3 :: rest =>
    ((((b0 <<< 8) ||| b1) <<< 8 ||| b2) <<< 8 ||| b3) :: toWords rest
  | _ => []

def extendW (w16 : List Nat) : List Nat :=
  (List.range 48).foldl
    (fun w i =>
      w ++ [w32 (ssig1 (w.getD (i + 14) 0) + w.getD (i + 9) 0 +
                 ssig0 (w.getD (i + 1) 0) + w.getD i 0)])
    w16

def compressStep (s : List Nat) (kw : Nat × Nat) : List Nat :=
  match s with
  | [a, b, c, d, e, f, g, h] =>
    let t1 := w32 (h + bsig1 e + ch e f g + kw.1 + kw.2)
    let t2 := w32 (bsig0 a + maj a b c)
    [w32 (t1 + t2), a, b, c, w32 (d + t1), e, f, g]
  | s => s

def sha256Compress (h : List Nat) (block : List Nat) : List Nat :=
  let w := extendW (toWords block)
  let s := (sha256K.zip w).foldl compressStep h
  (h.zip s).map (fun p => w32 (p.1 + p.2))

def wordBytes (w : Nat) : List Nat :=
  [(w >>> 24) &&& 255, (w >>> 16) &&& 255, (w >>> 8) &&& 255, w &&& 255]

def sha256 (msg : List Nat) : List Nat :=
  (((chunks64 (sha256Pad msg)).foldl sha256Compress sha256H0).map wordBytes).flatten

def hexDigit (n : Nat) : Char :=
  Char.ofNat (if n < 10 then 48 + n else 87 + n)

def hexByte (b : Nat) : String :=
  String.mk [hexDigit (b / 16), hexDigit (b % 16)]

def bytesToHex (l : List Nat) : String :=
  String.join (l.map hexByte)

def sha256Hex (msg : List Nat) : String := bytesToHex (sha256 msg)

/-! ## Pinned hostname (tlspage.Hostname)

The Go function takes a PEM private key, extracts the public key and
marshals it to DER SubjectPublicKeyInfo via `x509.MarshalPKIXPublicKey`;
the embedding takes those SPKI bytes directly. -/

def Hostname (pubKeySPKI : List Nat) (origin : String) : String :=
  let fingerprint := (sha256Hex pubKeySPKI).data
  String.mk (fingerprint.take 32) ++ "." ++ String.mk (fingerprint.drop 32) ++ "." ++ origin

/-- DER SubjectPublicKeyInfo of the P-256 public key contained in the
fixture private key K1 of TestHostname. -/
def fixtureK1SPKI : List Nat :=
  [48, 89, 48, 19, 6, 7, 42, 134, 72, 206, 61, 2, 1, 6, 8, 42, 134, 72,
   206, 61, 3, 1, 7, 3, 66, 0, 4, 252, 193, 22, 129, 169, 101, 222, 113,
   216, 61, 213, 207, 78, 21, 108, 22, 130, 21, 220, 26, 205, 214, 93, 4,
   181, 21, 195, 140, 136, 44, 241, 63, 204, 54, 255, 109, 192, 38, 234,
   131, 139, 185, 100, 130, 158, 243, 17, 220, 109, 192, 129, 164, 243,
   212, 1, 24, 97, 116, 179, 125, 16, 163, 166, 108]

/-! ## CSR validation (validate.go: getCSRNames, CSRPinnedBaseName)

A certificate request is modelled after `x509.ParseCertificateRequest`:
the parsed fields the validator consults (common name and the four SAN
kinds, IP addresses already rendered through `ip.String()`), the
DER-encoded SubjectPublicKeyInfo of its public key, and the raw DER
bytes of the request itself (stored by the cert cache). -/

structure CSR where
  commonName : String
  dnsNames : List String
  emailAddresses : List String
  ipAddresses : List String
  uris : List String
  publicKeySPKI : List Nat
  der : List Nat
deriving DecidableEq

def getCSRNames (csr : CSR) : List String :=
  (if 0 < csr.commonName.length then [csr.commonName] else []) ++
    csr.dnsNames ++ csr.emailAddresses ++ csr.ipAddresses ++ csr.uris

def CSRPinnedBaseName (csr : CSR) (origin : String) : Except String String :=
  let fingerprint := (sha256Hex csr.publicKeySPKI).data
  let baseName := String.mk (fingerprint.take 32) ++ "." ++
    String.mk (fingerprint.drop 32) ++ "." ++ origin
  let expected := "*." ++ baseName
  let names := getCSRNames csr
  match names.find? (fun n => n != expected) with
  | some n => .error ("CSR does not match expected hostname: " ++ n)
  | none =>
    if names.length = 0 then .error "CSR does not contain any names"
    else .ok baseName

/-- A CSR whose sole name is the wildcard pinned name of the fixture key. -/
def fixtureCSR : CSR where
  commonName := ""
  dnsNames :=
    ["*.9b7d8f4b4f45183149c1b666d08d1f8c.bfcd0704a087908e509c39b1c2b98cc5.example.com"]
  emailAddresses := []
  ipAddresses := []
  uris := []
  publicKeySPKI := fixtureK1SPKI
  der := [48, 1]

/-- C2: `Hostname` is deterministic and returns `H[0:32].H[32:64].origin`
where `H` is the lower-case hex SHA-256 of the key's DER-encoded
SubjectPublicKeyInfo; on the fixture P-256 key K1 of `TestHostname` with
origin `example.com` it yields the expected pinned name. -/
theorem Hostname_spec :
    (∀ k o, Hostname k o =
        String.mk ((sha256Hex k).data.take 32) ++ "." ++
          String.mk ((sha256Hex k).data.drop 32) ++ "." ++ o)
  ∧ Hostname fixtureK1SPKI "example.com" =
      "9b7d8f4b4f45183149c1b666d08d1f8c.bfcd0704a087908e509c39b1c2b98cc5.example.com" := by
  refine ⟨fun k o => rfl, ?_⟩
  set_option maxRecDepth 4000 in decide

/-- C1: `CSRPinnedBaseName` succeeds exactly when the CSR asserts at
least one name and every collected name (CN plus all DNS, IP, email and
URI SANs) equals `"*." ++ Hostname spki origin`; on success it returns
that name with the `*.` stripped, i.e. the pinned base name itself. -/
theorem CSRPinnedBaseName_spec (csr : CSR) (origin : String) :
    (∀ b, CSRPinnedBaseName csr origin = .ok b →
        b = Hostname csr.publicKeySPKI origin ∧
        getCSRNames csr ≠ [] ∧
        ∀ n ∈ getCSRNames csr, n = "*." ++ Hostname csr.publicKeySPKI origin)
  ∧ ((getCSRNames csr ≠ [] ∧
        ∀ n ∈ getCSRNames csr, n = "*." ++ Hostname csr.publicKeySPKI origin) →
      CSRPinnedBaseName csr origin = .ok (Hostname csr.publicKeySPKI origin)) := by
  have heq : CSRPinnedBaseName csr origin =
      (match (getCSRNames csr).find?
          (fun n => n != "*." ++ Hostname csr.publicKeySPKI origin) with
       | some n => .error ("CSR does not match expected hostname: " ++ n)
       | none =>
         if (getCSRNames csr).length = 0 then
           Except.error "CSR does not contain any names"
         else .ok (Hostname csr.publicKeySPKI origin)) := rfl
  rw [heq]
  cases hfind : (getCSRNames csr).find?
      (fun n => n != "*." ++ Hostname csr.publicKeySPKI origin) with
  | some n =>
    have hn : n ∈ getCSRNames csr := List.mem_of_find?_eq_some hfind
    have hne : n ≠ "*." ++ Hostname csr.publicKeySPKI origin := by
      have := List.find?_some hfind
      simpa using this
    constructor
    · intro b hb
      simp at hb
    · rintro ⟨-, hall⟩
      exact absurd (hall n hn) hne
  | none =>
    have hall : ∀ n ∈ getCSRNames csr,
        n = "*." ++ Hostname csr.publicKeySPKI origin := by
      intro n hn
      have := List.find?_eq_none.mp hfind n hn
      simpa using this
    by_cases hlen : (getCSRNames csr).length = 0
    · have hnil : getCSRNames csr = [] := List.length_eq_zero.mp hlen
      constructor
      · intro b hb
        simp [hlen] at hb
      · rintro ⟨hne, -⟩
        exact absurd hnil hne
    · constructor
      · intro b hb
        simp only [if_neg hlen] at hb
        refine ⟨?_, fun h => hlen (by simp [h]), hall⟩
        exact (Except.ok.injEq _ _ ▸ hb).symm
      · intro _
        simp [if_neg hlen]
        exact fun h => hlen (by simp [h])

/-- Witness for C1: the fixture CSR carrying exactly the pinned wildcard
name validates and returns the base name. -/
theorem CSRPinnedBaseName_spec_witness :
    CSRPinnedBaseName fixtureCSR "example.com" =
      .ok ("9b7d8f4b4f45183149c1b666d08d1f8c.bfcd0704a087908e509c39b1c2b98cc5.example.com") := by
  have h := (CSRPinnedBaseName_spec fixtureCSR "example.com").2
    ⟨by set_option maxRecDepth 4000 in decide,
     by set_option maxRecDepth 4000 in decide⟩
  refine h.trans (congrArg Except.ok ?_)
  set_option maxRecDepth 4000 in decide

/-! ## Cert cache (certcache.go)

SQLite table `certs (subject TEXT PRIMARY KEY, csr BLOB NOT NULL,
cert TEXT NULL, expiry INTEGER NOT NULL DEFAULT 0)`, modelled as a map
from subject to row. Expiry is Unix seconds. -/

structure CertRow where
  csr : List Nat
  cert : Option (List Nat)
  expiry : Int
deriving DecidableEq

abbrev CertTable := String → Option CertRow

inductive SqlErr where
  | noRows
  | other (msg : String)
deriving DecidableEq

/-- The `QueryRow ... Scan` step of `CertCache.Get`: a present row scans
successfully, an absent row yields `sql.ErrNoRows`. -/
def queryRowCert (t : CertTable) (subject : String) : Except SqlErr CertRow :=
  match t subject with
  | some r => .ok r
  | none => .error .noRows

/-- The error handling of `CertCache.Get` around the scan: `ErrNoRows`
becomes all-zero results with a nil error, any other error propagates.
A NULL `cert` column scans into a nil byte slice. -/
def scanCertRow (q : Except SqlErr CertRow) :
    Except String (List Nat × List Nat × Int) :=
  match q with
  | .ok r => .ok (r.csr, r.cert.getD [], r.expiry)
  | .error .noRows => .ok ([], [], 0)
  | .error (.other e) => .error e

def CertCacheGet (t : CertTable) (subject : String) :
    Except String (List Nat × List Nat × Int) :=
  scanCertRow (queryRowCert t subject)

/-- `CertCache.PutCSR` after the PEM gate and DER parse: validate the
pin, then `INSERT OR IGNORE (subject, csr)` under subject
`"*." ++ baseName`; the new row takes the column defaults
(`cert` NULL, `expiry` 0) and an existing row is left untouched. -/
def CertCachePutCSR (t : CertTable) (csr : CSR) (origin : String) :
    Except String CertTable :=
  match CSRPinnedBaseName csr origin with
  | .error e => .error ("failed to get pinned base name: " ++ e)
  | .ok baseName =>
    let subject := "*." ++ baseName
    match t subject with
    | some _ => .ok t
    | none => .ok (fun s => if s = subject then some ⟨csr.der, none, 0⟩ else t s)

/-- The leaf certificate fields `CertCache.Put` reads after
`pem.Decode` + `x509.ParseCertificate`. `notAfter` is Unix seconds. -/
structure LeafCert where
  commonName : String
  dnsNames : List String
  notAfter : Int
deriving DecidableEq

/-- Subject derivation in `CertCache.Put`: CN if non-empty, else the
first DNS SAN. -/
def leafSubject (leaf : LeafCert) : String :=
  if leaf.commonName ≠ "" then leaf.commonName else leaf.dnsNames.headD ""

/-- `CertCache.Put`: decode and parse the first certificate of the PEM
chain (abstracted as `parseCert`), derive the subject, and
`INSERT OR REPLACE (subject, csr, cert, expiry = leaf.NotAfter)`. -/
def CertCachePut (parseCert : List Nat → Except String LeafCert)
    (t : CertTable) (csr cert : List Nat) : Except String CertTable :=
  match parseCert cert with
  | .error e => .error e
  | .ok leaf =>
    if leaf.commonName ≠ "" ∨ leaf.dnsNames ≠ [] then
      .ok (fun s =>
        if s = leafSubject leaf then some ⟨csr, some cert, leaf.notAfter⟩
        else t s)
    else .error "no common name or DNS names found in certificate"

/-- C8: `CertCache.Get` on an absent subject returns zero values for all
three results and a nil error; only a database failure other than
`sql.ErrNoRows` surfaces as an error. -/
theorem CertCacheGet_spec :
    (∀ t subject, t subject = none → CertCacheGet t subject = .ok ([], [], 0))
  ∧ (∀ t subject r, t subject = some r →
      CertCacheGet t subject = .ok (r.csr, r.cert.getD [], r.expiry))
  ∧ (∀ e, scanCertRow (.error (.other e)) = .error e)
  ∧ scanCertRow (.error .noRows) = .ok ([], [], 0) := by
  refine ⟨fun t subject h => ?_, fun t subject r h => ?_, fun e => rfl, rfl⟩
  · simp [CertCacheGet, queryRowCert, h, scanCertRow]
  · simp [CertCacheGet, queryRowCert, h, scanCertRow]

/-- Witness for C8: the empty cache misses and yields zero values. -/
theorem CertCacheGet_spec_witness :
    CertCacheGet (fun _ => none) "*.a.b.example.com" = .ok ([], [], 0) :=
  CertCacheGet_spec.1 (fun _ => none) "*.a.b.example.com" rfl

/-- C6: the cert cache is monotone. `PutCSR` inserts only when no row
exists for the derived subject `"*.<base>"` (`INSERT OR IGNORE`): every
existing row, its chain included, survives unchanged, a repeated
`PutCSR` for the same subject changes nothing, and a freshly inserted
row carries the column defaults (`cert` NULL, `expiry` 0), so `Put`
alone writes the `cert`/`expiry` columns; `Put` stores
`(subject, csr, cert, leaf.NotAfter)` under the leaf's CN if non-empty,
else its first DNS SAN. -/
theorem cert_cache_monotone :
    (∀ t csr origin t', CertCachePutCSR t csr origin = .ok t' →
        (∀ s r, t s = some r → t' s = some r)
      ∧ (∀ s, t s = none → t' s = none ∨ t' s = some ⟨csr.der, none, 0⟩))
  ∧ (∀ t csr origin base, CSRPinnedBaseName csr origin = .ok base →
        t ("*." ++ base) ≠ none → CertCachePutCSR t csr origin = .ok t)
  ∧ (∀ parseCert t csr cert leaf t',
        parseCert cert = .ok leaf →
        CertCachePut parseCert t csr cert = .ok t' →
        t' (leafSubject leaf) = some ⟨csr, some cert, leaf.notAfter⟩
      ∧ ∀ s, s ≠ leafSubject leaf → t' s = t s) := by
  refine ⟨fun t csr origin t' h => ?_, fun t csr origin base hbase hsome => ?_,
    fun parseCert t csr cert leaf t' hp h => ?_⟩
  · unfold CertCachePutCSR at h
    cases hbase : CSRPinnedBaseName csr origin with
    | error e => rw [hbase] at h; exact absurd h (by simp)
    | ok base =>
      rw [hbase] at h
      cases hrow : t ("*." ++ base) with
      | some r0 =>
        simp only [hrow] at h
        cases h
        exact ⟨fun s r hs => hs, fun s hs => Or.inl hs⟩
      | none =>
        simp only [hrow] at h
        cases h
        constructor
        · intro s r hs
          by_cases hsubj : s = "*." ++ base
          · rw [hsubj] at hs; rw [hs] at hrow; exact absurd hrow (by simp)
          · simp [hsubj, hs]
        · intro s hs
          by_cases hsubj : s = "*." ++ base
          · right; simp [hsubj]
          · left; simp [hsubj, hs]
  · unfold CertCachePutCSR
    rw [hbase]
    cases hrow : t ("*." ++ base) with
    | some r0 => simp [hrow]
    | none => exact absurd hrow hsome
  · unfold CertCachePut at h
    rw [hp] at h
    by_cases hname : leaf.commonName ≠ "" ∨ leaf.dnsNames ≠ []
    · simp only [if_pos hname] at h
      cases h
      exact ⟨by simp, fun s hs => by simp [hs]⟩
    · simp only [if_neg hname] at h
      exact absurd h (by simp)

/-- Witness for C6: a repeated `PutCSR` of the fixture CSR against a
cache already holding a row (with a chain) for its subject returns the
cache unchanged. -/
theorem cert_cache_monotone_witness :
    CertCachePutCSR
      (fun s =>
        if s = "*.9b7d8f4b4f45183149c1b666d08d1f8c.bfcd0704a087908e509c39b1c2b98cc5.example.com"
        then some (⟨[48, 1], some [99], (7 : Int)⟩ : CertRow) else none)
      fixtureCSR "example.com" =
    .ok (fun s =>
        if s = "*.9b7d8f4b4f45183149c1b666d08d1f8c.bfcd0704a087908e509c39b1c2b98cc5.example.com"
        then some (⟨[48, 1], some [99], (7 : Int)⟩ : CertRow) else none) := by
  exact cert_cache_monotone.2.1
    (fun s =>
      if s = "*.9b7d8f4b4f45183149c1b666d08d1f8c.bfcd0704a087908e509c39b1c2b98cc5.example.com"
      then some (⟨[48, 1], some [99], (7 : Int)⟩ : CertRow) else none)
    fixtureCSR "example.com"
    "9b7d8f4b4f45183149c1b666d08d1f8c.bfcd0704a087908e509c39b1c2b98cc5.example.com"
    (by set_option maxRecDepth 4000 in decide)
    (by decide)

/-! ## Validation-record store (dns.go: SetValidationRecord, GetValidationRecord)

SQLite table `validation_records (qname TEXT PRIMARY KEY, value TEXT NOT
NULL, created INTEGER NOT NULL DEFAULT (strftime('%s','now')))`,
modelled as a list of rows; `now` is the Unix time at which the
statement executes. -/

structure VRow where
  qname : String
  value : String
  created : Int
deriving DecidableEq

abbrev VTable := List VRow

/-- `SetValidationRecord`: `INSERT OR REPLACE INTO validation_records
(qname, value) VALUES (?, ?)` (the `created` column takes its default,
the current time) followed in the same statement by `DELETE FROM
validation_records WHERE created < (strftime('%s','now') - 10 * 60)`. -/
def SetValidationRecord (t : VTable) (qname value : String) (now : Int) : VTable :=
  let replaced := ⟨qname, value, now⟩ :: t.filter (fun r => r.qname ≠ qname)
  replaced.filter (fun r => ¬ r.created < now - 10 * 60)

/-- `GetValidationRecord`: single-row select by qname; `sql.ErrNoRows`
becomes the empty string with a nil error. -/
def GetValidationRecord (t : VTable) (qname : String) : Except String String :=
  match t.find? (fun r => r.qname = qname) with
  | some r => .ok r.value
  | none => .ok ""

/-- C5: `Set(qname, value)` upserts the row for `qname` and, in the same
statement, deletes every row whose `created` timestamp is more than 10
minutes old at that moment, so after any `Set` no row older than 10
minutes remains (while fresh rows for other qnames survive); `Get`
returns the stored value for the written qname, and returns the empty
string with a nil error when no row exists. -/
theorem validation_store_spec :
    (∀ t q v now, ∀ r ∈ SetValidationRecord t q v now, ¬ r.created < now - 10 * 60)
  ∧ (∀ t q v now, GetValidationRecord (SetValidationRecord t q v now) q = .ok v)
  ∧ (∀ t q v now r, r ∈ t → r.qname ≠ q → ¬ r.created < now - 10 * 60 →
      r ∈ SetValidationRecord t q v now)
  ∧ (∀ t q, (∀ r ∈ t, r.qname ≠ q) → GetValidationRecord t q = .ok "") := by
  refine ⟨fun t q v now r hr => ?_, fun t q v now => ?_,
    fun t q v now r hr hq hfresh => ?_, fun t q h => ?_⟩
  · have := List.of_mem_filter hr
    simpa using this
  · have hmem : (⟨q, v, now⟩ : VRow) ∈ SetValidationRecord t q v now := by
      unfold SetValidationRecord
      apply List.mem_filter.mpr
      exact ⟨List.mem_cons_self _ _, by simp⟩
    unfold GetValidationRecord
    cases hfind : (SetValidationRecord t q v now).find? (fun r => r.qname = q) with
    | none =>
      exact absurd (List.find?_eq_none.mp hfind _ hmem) (by simp)
    | some r =>
      have hrq : r.qname = q := by simpa using List.find?_some hfind
      have hrmem : r ∈ SetValidationRecord t q v now :=
        List.mem_of_find?_eq_some hfind
      unfold SetValidationRecord at hrmem
      have hrmem' := List.mem_of_mem_filter hrmem
      rcases List.mem_cons.mp hrmem' with h | h
      · simp [h]
      · exact absurd hrq (by simpa using List.of_mem_filter h)
  · apply List.mem_filter.mpr
    refine ⟨List.mem_cons_of_mem _ (List.mem_filter.mpr ⟨hr, by simpa using hq⟩), ?_⟩
    simpa using hfresh
  · unfold GetValidationRecord
    cases hfind : t.find? (fun r => r.qname = q) with
    | none => rfl
    | some r =>
      have hrq : r.qname = q := by simpa using List.find?_some hfind
      exact absurd hrq (h r (List.mem_of_find?_eq_some hfind))

/-- Witness for C5: setting `tok123` for an ACME challenge name deletes
an 11-minute-old row and the fresh value is readable back. -/
theorem validation_store_spec_witness :
    (∀ r ∈ SetValidationRecord
        [⟨"_acme-challenge.a.b.example.com.", "old", 0⟩]
        "_acme-challenge.a.b.example.com." "tok123" 660,
      ¬ r.created < 660 - 10 * 60)
  ∧ GetValidationRecord
      (SetValidationRecord
        [⟨"_acme-challenge.a.b.example.com.", "old", 0⟩]
        "_acme-challenge.a.b.example.com." "tok123" 660)
      "_acme-challenge.a.b.example.com." = .ok "tok123" :=
  ⟨validation_store_spec.1 [⟨"_acme-challenge.a.b.example.com.", "old", 0⟩]
      "_acme-challenge.a.b.example.com." "tok123" 660,
   validation_store_spec.2.1 [⟨"_acme-challenge.a.b.example.com.", "old", 0⟩]
      "_acme-challenge.a.b.example.com." "tok123" 660⟩

/-! ## net.ParseIP (netip.ParseAddr), translated over char lists

`net.ParseIP` parses via `netip.ParseAddr` and rejects zoned addresses;
addresses are handled in their 16-byte `As16` form (IPv4 results are
v4-in-v6 mapped). -/

def isDigit (c : Char) : Bool := '0' ≤ c && c ≤ '9'

def hexVal (c : Char) : Option Nat :=
  if '0' ≤ c ∧ c ≤ '9' then some (c.toNat - 48)
  else if 'a' ≤ c ∧ c ≤ 'f' then some (c.toNat - 87)
  else if 'A' ≤ c ∧ c ≤ 'F' then some (c.toNat - 55)
  else none

/-- The field loop of `netip.parseIPv4Fields`; `prev` is the previous
character (none at the start), `val`/`digLen` the current octet
accumulator and its digit count, `fields` the completed octets. -/
def ipv4Loop : List Char → Option Char → Nat → Nat → List Nat →
    Except String (List Nat)
  | [], _, val, _, fields =>
    if fields.length < 3 then .error "IPv4 address too short"
    else .ok (fields ++ [val])
  | c :: rest, prev, val, digLen, fields =>
    if isDigit c then
      if digLen = 1 ∧ val = 0 then
        .error "IPv4 field has octet with leading zero"
      else
        let val' := val * 10 + (c.toNat - 48)
        if val' > 255 then .error "IPv4 field has value >255"
        else ipv4Loop rest (some c) val' (digLen + 1) fields
    else if c = '.' then
      if prev = none ∨ rest = [] ∨ prev = some '.' then
        .error "IPv4 field must have at least one digit"
      else if fields.length = 3 then .error "IPv4 address too long"
      else ipv4Loop rest (some c) 0 0 (fields ++ [val])
    else .error "unexpected character"

def parseIPv4 (s : List Char) : Except String (List Nat) :=
  ipv4Loop s none 0 0 []

/-- `As16` of an IPv4 address: the v4-in-v6 mapped 16-byte form. -/
def v4mapped (fields : List Nat) : List Nat :=
  [0, 0, 0, 0, 0, 0, 0, 0, 0, 0, 255, 255] ++ fields

def indexOfChar (c : Char) : List Char → Option Nat
  | [] => none
  | x :: rest => if x = c then some 0 else (indexOfChar c rest).map (· + 1)

/-- Split the zone suffix off at the first `%`. -/
def splitZone (s : List Char) : List Char × Option (List Char) :=
  match indexOfChar '%' s with
  | none => (s, none)
  | some i => (s.take i, some (s.drop (i + 1)))

/-- The inner hex-chunk scan of `netip.parseIPv6`: consume hex digits,
failing when the accumulated group exceeds 16 bits. Returns the
accumulator, the number of digits consumed, and the remaining input. -/
def hexGroupScan : List Char → Nat → Nat → Except String (Nat × Nat × List Char)
  | [], acc, off => .ok (acc, off, [])
  | c :: rest, acc, off =>
    match hexVal c with
    | some v =>
      let acc' := acc * 16 + v
      if acc' > 65535 then .error "IPv6 field has value >=2^16"
      else hexGroupScan rest acc' (off + 1)
    | none => .ok (acc, off, c :: rest)

/-- The main loop of `netip.parseIPv6`. `ip` is the byte prefix built so
far, `ellipsis` the byte index of `::` when seen. Returns the bytes, the
ellipsis position, and whatever input remains when the loop exits. The
fuel argument only bounds the recursion; every iteration consumes at
least one character, so `length + 1` always suffices. -/
def ipv6Loop : Nat → List Char → List Nat → Option Nat →
    Except String (List Nat × Option Nat × List Char)
  | 0, _, _, _ => .error "internal: ipv6 fuel exhausted"
  | Nat.succ fuel, s0, ip, ellipsis =>
    if 16 ≤ ip.length then .ok (ip, ellipsis, s0)
    else
      match hexGroupScan s0 0 0 with
      | .error e => .error e
      | .ok (acc, off, rest) =>
        if off = 0 then
          .error "each colon-separated field must have at least one digit"
        else
          match rest with
          | '.' :: _ =>
            if ellipsis = none ∧ ip.length ≠ 12 then
              .error "embedded IPv4 address must replace the final 2 fields of the address"
            else if 16 < ip.length + 4 then
              .error "too many hex fields to fit an embedded IPv4 at the end of the address"
            else
              match parseIPv4 s0 with
              | .error e => .error e
              | .ok fields => .ok (ip ++ fields, ellipsis, [])
          | _ =>
            let ip' := ip ++ [(acc >>> 8) &&& 255, acc &&& 255]
            match rest with
            | [] => .ok (ip', ellipsis, [])
            | c :: rest2 =>
              if c ≠ ':' then .error "unexpected character, want colon"
              else
                match rest2 with
                | [] => .error "colon must be followed by more characters"
                | ':' :: rest3 =>
                  if ellipsis.isSome then .error "multiple :: in address"
                  else
                    match rest3 with
                    | [] => .ok (ip', some ip'.length, [])
                    | _ => ipv6Loop fuel rest3 ip' (some ip'.length)
                | _ => ipv6Loop fuel rest2 ip' ellipsis

/-- The post-loop checks of `netip.parseIPv6`: no trailing garbage,
ellipsis expansion when fewer than 16 bytes were parsed, and rejection
of a `::` that expands to nothing. -/
def ipv6Finish (r : Except String (List Nat × Option Nat × List Char))
    (zone : List Char) : Except String (List Nat × List Char) :=
  match r with
  | .error e => .error e
  | .ok (ip, ellipsis, s) =>
    if s ≠ [] then .error "trailing garbage after address"
    else if ip.length < 16 then
      match ellipsis with
      | none => .error "address string too short"
      | some e =>
        .ok (ip.take e ++ List.replicate (16 - ip.length) 0 ++ ip.drop e, zone)
    else if ellipsis.isSome then
      .error "the :: must expand to at least one field of zeros"
    else .ok (ip, zone)

def parseIPv6 (s1 : List Char) : Except String (List Nat × List Char) :=
  let sz := splitZone s1
  match sz.2 with
  | some [] => .error "zone must be a non-empty string"
  | _ =>
    let s := sz.1
    let zone := (sz.2).getD []
    match s with
    | ':' :: ':' :: s2 =>
      if s2 = [] then .ok (List.replicate 16 0, zone)
      else ipv6Finish (ipv6Loop (s2.length + 1) s2 [] (some 0)) zone
    | _ => ipv6Finish (ipv6Loop (s.length + 1) s [] none) zone

/-- The dispatch of `netip.ParseAddr`: the first `.`, `:` or `%` decides
the family. -/
def firstSpecial : List Char → Option Char
  | [] => none
  | c :: rest => if c = '.' ∨ c = ':' ∨ c = '%' then some c else firstSpecial rest

def parseAddr (s : List Char) : Except String (List Nat × List Char) :=
  match firstSpecial s with
  | some '.' => (parseIPv4 s).map (fun fields => (v4mapped fields, []))
  | some ':' => parseIPv6 s
  | some '%' => .error "missing IPv6 address"
  | _ => .error "unable to parse IP"

/-- `net.ParseIP`: `netip.ParseAddr` with zoned addresses rejected,
returning the 16-byte `As16` form (nil modelled as `none`). -/
def goParseIP (s : List Char) : Option (List Nat) :=
  match parseAddr s with
  | .ok (b, zone) => if zone ≠ [] then none else some b
  | .error _ => none

/-- `net.IP.To4` on a 16-byte address. -/
def ipTo4 (b : List Nat) : Option (List Nat) :=
  if b.take 12 = [0, 0, 0, 0, 0, 0, 0, 0, 0, 0, 255, 255] then some (b.drop 12)
  else none

/-! ## DNS backend (dns.go: DNSBackend, Lookup)

Qname manipulation follows the byte-level Go string functions
(`strings.Split`, `strings.Cut`, `strings.HasPrefix`,
`dns.CanonicalName`), rendered over char lists. `Char.toLower` agrees
with `strings.ToLower` on the ASCII names DNS deals in. -/

def splitOnChar (sep : Char) : List Char → List (List Char)
  | [] => [[]]
  | c :: rest =>
    if c = sep then [] :: splitOnChar sep rest
    else
      match splitOnChar sep rest with
      | h :: t => (c :: h) :: t
      | [] => [[c]]

def goHasPrefix (s pre : List Char) : Bool := pre.isPrefixOf s

/-- `dns.IsFqdn`: ends with a dot that is not escaped (an even number of
trailing backslashes precedes it). -/
def isFqdn (s : List Char) : Bool :=
  match s.getLast? with
  | some '.' => (s.dropLast.reverse.takeWhile (fun c => c = '\\')).length % 2 = 0
  | _ => false

def dnsFqdn (s : List Char) : List Char := if isFqdn s then s else s ++ ['.']

/-- `dns.CanonicalName`: `strings.ToLower(dns.Fqdn(s))`. -/
def canonicalName (s : List Char) : List Char := (dnsFqdn s).map Char.toLower

def isHexLower (c : Char) : Bool := ('0' ≤ c && c ≤ '9') || ('a' ≤ c && c ≤ 'f')

/-- The compiled pattern
`^[0-9a-f-]{3,45}\.[0-9a-f]{32}\.[0-9a-f]{32}\.<origin>\.$` as a
decidable matcher: none of the three leading label classes admits a dot,
so a match decomposes exactly at the label boundaries. -/
def wildcardDNSName (origin : List Char) (q : List Char) : Bool :=
  match splitOnChar '.' q with
  | l0 :: l1 :: l2 :: rest =>
    (3 ≤ l0.length && l0.length ≤ 45) &&
    l0.all (fun c => isHexLower c || c = '-') &&
    (l1.length = 32 && l1.all isHexLower) &&
    (l2.length = 32 && l2.all isHexLower) &&
    (List.intercalate ['.'] rest = origin ++ ['.'])
  | _ => false

/-- The closed sum of resource records the backend produces; static zone
records of other types are carried opaquely. -/
inductive RR where
  | A (name : String) (ttl : Nat) (addr : List Nat)
  | AAAA (name : String) (ttl : Nat) (addr : List Nat)
  | TXT (name : String) (ttl : Nat) (txt : List String)
  | other (name : String) (ttl : Nat) (rtype : Nat) (rdata : String)
deriving DecidableEq

/-- `dns.Copy` followed by `rCopy.Header().Name = qname`. -/
def RR.setName (r : RR) (n : String) : RR :=
  match r with
  | .A _ ttl a => .A n ttl a
  | .AAAA _ ttl a => .AAAA n ttl a
  | .TXT _ ttl t => .TXT n ttl t
  | .other _ ttl ty d => .other n ttl ty d

structure DNSBackend where
  Origin : String
  StaticRecords : String → List RR
  validation : VTable

/-- The wildcard fallback loop: for `i = 1 .. len(parts)-1` try
`"*." ++ parts[i:]` in the static map, rewriting owner names of the
first hit to the query name. -/
def wcLoop (b : DNSBackend) (qname : String) : List (List String) → List RR
  | [] => []
  | labels :: more =>
    let found := b.StaticRecords ("*." ++ String.intercalate "." labels)
    if found.isEmpty then wcLoop b qname more
    else found.map (fun r => r.setName qname)

/-- The static part of `Lookup`: exact match, then wildcard fallback
when the exact match is empty. -/
def staticLookup (b : DNSBackend) (qname : String) : List RR :=
  let rr := b.StaticRecords qname
  if rr.isEmpty then
    let parts := (splitOnChar '.' qname.data).map String.mk
    wcLoop b qname (((List.range parts.length).drop 1).map (fun i => parts.drop i))
  else rr

def Lookup (b : DNSBackend) (qname0 : String) : Except String (List RR) :=
  let qname := String.mk (canonicalName qname0.data)
  if goHasPrefix qname.data "_acme-challenge.".data then
    match GetValidationRecord b.validation qname with
    | .error e => .error ("failed to get validation record: " ++ e)
    | .ok vRecord =>
      .ok (if vRecord ≠ "" then [RR.TXT qname 0 [vRecord]] else [])
  else if wildcardDNSName b.Origin.data qname.data then
    let ipPart := (splitOnChar '.' qname.data).headD []
    match goParseIP (ipPart.map (fun c => if c = '-' then '.' else c)) with
    | some parsed => .ok [RR.A qname 2592000 ((ipTo4 parsed).getD [])]
    | none =>
      match goParseIP (ipPart.map (fun c => if c = '-' then ':' else c)) with
      | some parsed => .ok [RR.AAAA qname 2592000 parsed]
      | none => .ok (staticLookup b qname)
  else .ok (staticLookup b qname)

/-- A nonempty first chunk of `splitOnChar` starts where the input
starts. -/
theorem splitOnChar_head (sep : Char) (l p : List Char) (ps : List (List Char))
    (h : splitOnChar sep l = p :: ps) (hp : p ≠ []) : l.head? = p.head? := by
  cases l with
  | nil =>
    simp [splitOnChar] at h
    exact absurd h.1 hp
  | cons c rest =>
    by_cases hc : c = sep
    · simp [splitOnChar, hc] at h
      exact absurd h.1 hp
    · simp only [splitOnChar, if_neg hc] at h
      cases hrec : splitOnChar sep rest with
      | nil => rw [hrec] at h; cases h; rfl
      | cons h0 t0 => rw [hrec] at h; cases h; rfl

/-- A string whose first character is a prefix witness. -/
theorem goHasPrefix_head (s p : List Char) (c : Char)
    (hp : goHasPrefix s (c :: p) = true) : s.head? = some c := by
  cases s with
  | nil => simp [goHasPrefix, List.isPrefixOf] at hp
  | cons a s' =>
    simp [goHasPrefix, List.isPrefixOf] at hp
    simp [hp.1]

/-- A qname matching the IP-synthesis pattern cannot carry the
`_acme-challenge.` label: its first character is a hex digit or dash. -/
theorem wildcard_no_acme (origin q : List Char)
    (h : wildcardDNSName origin q = true) :
    goHasPrefix q "_acme-challenge.".data = false := by
  unfold wildcardDNSName at h
  cases hs : splitOnChar '.' q with
  | nil => rw [hs] at h; exact absurd h (by simp)
  | cons l0 tail =>
    cases tail with
    | nil => rw [hs] at h; exact absurd h (by simp)
    | cons l1 tail2 =>
      cases tail2 with
      | nil => rw [hs] at h; exact absurd h (by simp)
      | cons l2 rest =>
        rw [hs] at h
        simp only [Bool.and_eq_true, decide_eq_true_eq] at h
        obtain ⟨⟨⟨⟨⟨hlen, -⟩, hall⟩, -⟩, -⟩, -⟩ := h
        have hl0 : l0 ≠ [] := by
          intro he
          rw [he] at hlen
          simp at hlen
        obtain ⟨c0, l0', rfl⟩ : ∃ c0 l0', l0 = c0 :: l0' := by
          cases l0 with
          | nil => exact absurd rfl hl0
          | cons a t => exact ⟨a, t, rfl⟩
        have hc0 : (isHexLower c0 || c0 = '-') = true := by
          have := List.all_eq_true.mp hall c0 (by simp)
          simpa using this
        by_contra hpre
        have hpre' : goHasPrefix q "_acme-challenge.".data = true := by
          cases hgp : goHasPrefix q "_acme-challenge.".data with
          | true => rfl
          | false => exact absurd hgp hpre
        have hhead : q.head? = some '_' :=
          goHasPrefix_head q _ '_' hpre'
        have hhead' : q.head? = some c0 := by
          have := splitOnChar_head '.' q (c0 :: l0') (l1 :: l2 :: rest) hs (by simp)
          simpa using this
        rw [hhead] at hhead'
        have hc0eq : c0 = '_' := (Option.some.injEq _ _ ▸ hhead').symm
        rw [hc0eq] at hc0
        exact absurd hc0 (by decide)

/-- C4: for a canonicalized qname matching the synthesis pattern,
`Lookup` takes the leftmost label, first tries it dash-to-dot as IPv4
and on success answers exactly one A record (address `To4`, TTL
2592000); otherwise tries dash-to-colon as IPv6 and on success answers
exactly one AAAA record with TTL 2592000 — in both cases without
consulting the static zone map or wildcards (the answer is fixed
whatever `StaticRecords` holds); only when neither parse succeeds does
it fall through to the exact-static-then-wildcard path. -/
theorem Lookup_ip_synthesis (b : DNSBackend) (q : String)
    (hm : wildcardDNSName b.Origin.data (canonicalName q.data) = true) :
    (∀ parsed,
        goParseIP (((splitOnChar '.' (canonicalName q.data)).headD []).map
            (fun c => if c = '-' then '.' else c)) = some parsed →
        Lookup b q =
          .ok [RR.A (String.mk (canonicalName q.data)) 2592000 ((ipTo4 parsed).getD [])])
  ∧ (goParseIP (((splitOnChar '.' (canonicalName q.data)).headD []).map
        (fun c => if c = '-' then '.' else c)) = none →
      ∀ parsed,
        goParseIP (((splitOnChar '.' (canonicalName q.data)).headD []).map
            (fun c => if c = '-' then ':' else c)) = some parsed →
        Lookup b q = .ok [RR.AAAA (String.mk (canonicalName q.data)) 2592000 parsed])
  ∧ (goParseIP (((splitOnChar '.' (canonicalName q.data)).headD []).map
        (fun c => if c = '-' then '.' else c)) = none →
      goParseIP (((splitOnChar '.' (canonicalName q.data)).headD []).map
        (fun c => if c = '-' then ':' else c)) = none →
      Lookup b q = .ok (staticLookup b (String.mk (canonicalName q.data)))) := by
  have hpre : goHasPrefix (canonicalName q.data) "_acme-challenge.".data = false :=
    wildcard_no_acme b.Origin.data (canonicalName q.data) hm
  have key : Lookup b q =
      (match goParseIP (((splitOnChar '.' (canonicalName q.data)).headD []).map
          (fun c => if c = '-' then '.' else c)) with
       | some parsed =>
         .ok [RR.A (String.mk (canonicalName q.data)) 2592000 ((ipTo4 parsed).getD [])]
       | none =>
         match goParseIP (((splitOnChar '.' (canonicalName q.data)).headD []).map
             (fun c => if c = '-' then ':' else c)) with
         | some parsed =>
           .ok [RR.AAAA (String.mk (canonicalName q.data)) 2592000 parsed]
         | none => .ok (staticLookup b (String.mk (canonicalName q.data)))) := by
    unfold Lookup
    simp only [hpre, hm, Bool.false_eq_true, if_false, if_true]
  refine ⟨fun parsed hp => ?_, fun hp4 parsed hp6 => ?_, fun hp4 hp6 => ?_⟩
  · rw [key, hp]
  · rw [key, hp4, hp6]
  · rw [key, hp4, hp6]

/-- Witness for C4: the query `127-0-0-1.<pin>.example.com.` over an
empty zone synthesizes `A 127.0.0.1` with TTL 2592000. -/
theorem Lookup_ip_synthesis_witness :
    Lookup ⟨"example.com", fun _ => [], []⟩
      "127-0-0-1.9b7d8f4b4f45183149c1b666d08d1f8c.bfcd0704a087908e509c39b1c2b98cc5.example.com." =
    .ok [RR.A
      "127-0-0-1.9b7d8f4b4f45183149c1b666d08d1f8c.bfcd0704a087908e509c39b1c2b98cc5.example.com."
      2592000 [127, 0, 0, 1]] := by
  have h := (Lookup_ip_synthesis ⟨"example.com", fun _ => [], []⟩
      "127-0-0-1.9b7d8f4b4f45183149c1b666d08d1f8c.bfcd0704a087908e509c39b1c2b98cc5.example.com."
      (by decide)).1 (v4mapped [127, 0, 0, 1]) (by decide)
  exact h.trans (by decide)

/-- C9: for a qname carrying the `_acme-challenge.` label, `Lookup`
returns at most one TXT record with TTL 0 holding the stored validation
value (an empty answer with a nil error when none is stored), never
consults IP synthesis, the static zone map or wildcard fallback (the
answer is fixed whatever `StaticRecords` holds), and serves no static
record for such a name. -/
theorem Lookup_acme_challenge (b : DNSBackend) (q : String)
    (h : goHasPrefix (canonicalName q.data) "_acme-challenge.".data = true) :
    (∀ v, GetValidationRecord b.validation (String.mk (canonicalName q.data)) = .ok v →
        Lookup b q =
          .ok (if v ≠ "" then [RR.TXT (String.mk (canonicalName q.data)) 0 [v]] else []))
  ∧ (∀ recs, Lookup ⟨b.Origin, recs, b.validation⟩ q = Lookup b q)
  ∧ (∀ l, Lookup b q = .ok l → l.length ≤ 1 ∧
      ∀ rr ∈ l, ∃ v, rr = RR.TXT (String.mk (canonicalName q.data)) 0 [v]) := by
  have key : ∀ recs : String → List RR,
      Lookup ⟨b.Origin, recs, b.validation⟩ q =
      (match GetValidationRecord b.validation (String.mk (canonicalName q.data)) with
       | .error e => .error ("failed to get validation record: " ++ e)
       | .ok vRecord =>
         .ok (if vRecord ≠ "" then
            [RR.TXT (String.mk (canonicalName q.data)) 0 [vRecord]] else [])) := by
    intro recs
    unfold Lookup
    simp only [h, if_true]
  have keyb : Lookup b q =
      (match GetValidationRecord b.validation (String.mk (canonicalName q.data)) with
       | .error e => .error ("failed to get validation record: " ++ e)
       | .ok vRecord =>
         .ok (if vRecord ≠ "" then
            [RR.TXT (String.mk (canonicalName q.data)) 0 [vRecord]] else [])) := by
    have := key b.StaticRecords
    exact this
  refine ⟨fun v hv => ?_, fun recs => (key recs).trans keyb.symm, fun l hl => ?_⟩
  · rw [keyb, hv]
  · rw [keyb] at hl
    cases hget : GetValidationRecord b.validation (String.mk (canonicalName q.data)) with
    | error e => rw [hget] at hl; exact absurd hl (by simp)
    | ok v =>
      rw [hget] at hl
      by_cases hv : v ≠ ""
      · simp only [if_pos hv] at hl
        cases hl
        exact ⟨by simp, fun rr hrr => ⟨v, by simpa using hrr⟩⟩
      · simp only [if_neg hv] at hl
        cases hl
        exact ⟨by simp, fun rr hrr => absurd hrr (by simp)⟩

/-- Witness for C9: a TXT query for a stored challenge token answers the
token with TTL 0. -/
theorem Lookup_acme_challenge_witness :
    Lookup ⟨"example.com", fun _ => [],
        [⟨"_acme-challenge.x.example.com.", "tok123", 0⟩]⟩
      "_acme-challenge.x.example.com." =
    .ok [RR.TXT "_acme-challenge.x.example.com." 0 ["tok123"]] := by
  have h := (Lookup_acme_challenge ⟨"example.com", fun _ => [],
      [⟨"_acme-challenge.x.example.com.", "tok123", 0⟩]⟩
      "_acme-challenge.x.example.com." (by decide)).1 "tok123" (by decide)
  exact h.trans (by decide)

/-! ## ACME orchestrator (acme.go)

Configuration constants from config.go; durations are in seconds. The
`acme.Client` network calls are abstracted as an oracle record; the
mutable server state is the cert cache plus the validation-record store,
and every network-visible ACME step is logged as an action. -/

def ACMERetries : Nat := 3

def ACMERetryDelay : Nat := 15

/-- `MinLife` as set by `NewACME`: `60 * 24 * time.Hour` in seconds. -/
def MinLife : Int := 60 * 24 * 3600

structure AcmeOrder where
  authzURLs : List String
  finalizeURL : String

structure AcmeChallenge where
  ctype : String
  token : String
deriving DecidableEq

structure AcmeAuthz where
  challenges : List AcmeChallenge

structure AcmeOracle where
  authorizeOrder : List String → Except String AcmeOrder
  getAuthorization : String → Except String AcmeAuthz
  dns01ChallengeRecord : String → Except String String
  accept : AcmeChallenge → Except String Unit
  waitAuthorization : String → Except String Unit
  createOrderCert : String → List Nat → Except String (List (List Nat))
  pemEncodeCert : List Nat → List Nat
  parseCert : List Nat → Except String LeafCert

structure SrvState where
  certs : CertTable
  validation : VTable

inductive AcmeAction where
  | authorizeOrder (ids : List String)
  | setValidation (qname key : String)
  | accept (token : String)
  | waitAuthorization (url : String)
  | finalize (url : String) (csr : List Nat)
  | cachePut
deriving DecidableEq

/-- One iteration of the authorization loop of `requestCert`: fetch the
authorization, pick the `dns-01` challenge, compute the challenge
record, write it into the validation store (the 10-second propagation
wait and ctx cancellation have no state effect), accept, and wait. -/
def processAuthz (o : AcmeOracle) (baseName : String) (now : Int)
    (st : SrvState) (url : String) :
    Except String Unit × SrvState × List AcmeAction :=
  match o.getAuthorization url with
  | .error e => (.error ("failed to get authorization: " ++ e), st, [])
  | .ok auth =>
    match auth.challenges.find? (fun c => c.ctype = "dns-01") with
    | none => (.error "no DNS-01 challenge found", st, [])
    | some challenge =>
      match o.dns01ChallengeRecord challenge.token with
      | .error e => (.error ("failed to get DNS-01 challenge key: " ++ e), st, [])
      | .ok key =>
        let qn := "_acme-challenge." ++ baseName ++ "."
        let st' : SrvState := ⟨st.certs, SetValidationRecord st.validation qn key now⟩
        let acts := [AcmeAction.setValidation qn key]
        match o.accept challenge with
        | .error e => (.error ("failed to accept challenge: " ++ e), st',
            acts ++ [.accept challenge.token])
        | .ok () =>
          match o.waitAuthorization url with
          | .error e => (.error ("authorization failed: " ++ e), st',
              acts ++ [.accept challenge.token, .waitAuthorization url])
          | .ok () => (.ok (), st',
              acts ++ [.accept challenge.token, .waitAuthorization url])

def processAuthzs (o : AcmeOracle) (baseName : String) (now : Int) :
    List String → SrvState → Except String Unit × SrvState × List AcmeAction
  | [], st => (.ok (), st, [])
  | url :: rest, st =>
    match processAuthz o baseName now st url with
    | (.error e, st', acts) => (.error e, st', acts)
    | (.ok (), st', acts) =>
      match processAuthzs o baseName now rest st' with
      | (res, st'', acts') => (res, st'', acts ++ acts')

/-- `requestCert`, the single-attempt issuance flow: consult the cert
cache for `"*." ++ baseName` and return the cached chain when its expiry
is more than `MinLife` in the future; otherwise run the full order:
`AuthorizeOrder`, the per-authorization dns-01 loop, `CreateOrderCert`
on the finalize URL, PEM-encode the chain and store it via
`CertCache.Put`. -/
def requestCert (o : AcmeOracle) (now : Int) (minLife : Int)
    (baseName : String) (csrData : List Nat) (st : SrvState) :
    Except String (List Nat) × SrvState × List AcmeAction :=
  let got :=
    match st.certs ("*." ++ baseName) with
    | some r => (r.cert.getD [], r.expiry)
    | none => ([], (0 : Int))
  if minLife < got.2 - now then (.ok got.1, st, [])
  else
    match o.authorizeOrder ["*." ++ baseName] with
    | .error e => (.error ("failed to start certificate order: " ++ e), st,
        [.authorizeOrder ["*." ++ baseName]])
    | .ok order =>
      match processAuthzs o baseName now order.authzURLs st with
      | (.error e, st', acts) =>
        (.error e, st', AcmeAction.authorizeOrder ["*." ++ baseName] :: acts)
      | (.ok (), st', acts) =>
        match o.createOrderCert order.finalizeURL csrData with
        | .error e => (.error ("failed to finalize order: " ++ e), st',
            AcmeAction.authorizeOrder ["*." ++ baseName] :: acts ++
              [.finalize order.finalizeURL csrData])
        | .ok certs =>
          let encoded := (certs.map o.pemEncodeCert).flatten
          match CertCachePut o.parseCert st'.certs csrData encoded with
          | .error e => (.error ("failed to save certificate to cache: " ++ e), st',
              AcmeAction.authorizeOrder ["*." ++ baseName] :: acts ++
                [.finalize order.finalizeURL csrData])
          | .ok certs' => (.ok encoded, ⟨certs', st'.validation⟩,
              AcmeAction.authorizeOrder ["*." ++ baseName] :: acts ++
                [.finalize order.finalizeURL csrData, .cachePut])

/-- C3: when the cert cache holds a chain for `"*." ++ base` whose
expiry is more than `MinLife` (60 days) in the future, `requestCert`
returns that chain, performs no ACME action (no order, no challenge
record write, no finalize) and leaves the state unchanged — and the same
holds for a second call running against the state the first one left,
which models two concurrent calls for the same base. -/
theorem requestCert_cache_short_circuit (o : AcmeOracle) (now : Int)
    (base : String) (csr : List Nat) (st : SrvState) (row : CertRow)
    (chain : List Nat)
    (hrow : st.certs ("*." ++ base) = some row)
    (hchain : row.cert = some chain)
    (hfresh : MinLife < row.expiry - now) :
    requestCert o now MinLife base csr st = (.ok chain, st, [])
  ∧ requestCert o now MinLife base csr
      (requestCert o now MinLife base csr st).2.1 = (.ok chain, st, []) := by
  have h1 : requestCert o now MinLife base csr st = (.ok chain, st, []) := by
    unfold requestCert
    rw [hrow]
    simp only [hchain, Option.getD_some]
    rw [if_pos hfresh]
  exact ⟨h1, by rw [h1]; exact h1⟩

/-- Witness for C3: a cache holding a fresh chain short-circuits both of
two back-to-back calls. -/
theorem requestCert_cache_short_circuit_witness :
    requestCert
      ⟨fun _ => .error "down", fun _ => .error "down", fun _ => .error "down",
       fun _ => .error "down", fun _ => .error "down", fun _ _ => .error "down",
       id, fun _ => .error "down"⟩
      0 MinLife "a.b.example.com" [1]
      ⟨fun s => if s = "*.a.b.example.com" then
          some ⟨[1], some [2, 3], 6000000⟩ else none, []⟩ =
      (.ok [2, 3],
       ⟨fun s => if s = "*.a.b.example.com" then
          some ⟨[1], some [2, 3], 6000000⟩ else none, []⟩, []) := by
  exact (requestCert_cache_short_circuit
    ⟨fun _ => .error "down", fun _ => .error "down", fun _ => .error "down",
     fun _ => .error "down", fun _ => .error "down", fun _ _ => .error "down",
     id, fun _ => .error "down"⟩
    0 "a.b.example.com" [1]
    ⟨fun s => if s = "*.a.b.example.com" then
        some ⟨[1], some [2, 3], 6000000⟩ else none, []⟩
    ⟨[1], some [2, 3], 6000000⟩ [2, 3]
    (by simp) rfl (by decide)).1

/-- The retry loop of `ACME.RequestCert` around `requestCert`:
`remaining` counts the attempts still allowed (initially `ACMERetries`),
`i` the index of the next attempt, `delay` the next sleep. Each failed
attempt except the last sleeps `delay` and doubles it; the first success
returns immediately; exhaustion returns the last error. The result also
reports the number of attempts performed and the sleeps taken. -/
def rcLoop (attempt : Nat → Except String (List Nat)) :
    Nat → Nat → Nat → List Nat → Except String (List Nat) × Nat × List Nat
  | 0, i, _, sleeps => (.error "", i, sleeps)
  | Nat.succ rem, i, delay, sleeps =>
    match attempt i with
    | .ok cert => (.ok cert, i + 1, sleeps)
    | .error e =>
      match rem with
      | 0 => (.error e, i + 1, sleeps)
      | Nat.succ _ => rcLoop attempt rem (i + 1) (delay * 2) (sleeps ++ [delay])

def RequestCert (attempt : Nat → Except String (List Nat)) :
    Except String (List Nat) × Nat × List Nat :=
  rcLoop attempt ACMERetries 0 ACMERetryDelay []

/-- C7: `RequestCert` invokes the single-attempt flow at most
`ACMERetries` (3) times, returns on the first success, sleeps a doubling
delay starting at `ACMERetryDelay` (15 s) between consecutive failed
attempts, and returns the last attempt's error after exhaustion. -/
theorem RequestCert_retry_spec (attempt : Nat → Except String (List Nat)) :
    ((RequestCert attempt).2.1 ≤ ACMERetries)
  ∧ (∀ j c, j < ACMERetries → (∀ k, k < j → ∃ e, attempt k = .error e) →
      attempt j = .ok c →
      (RequestCert attempt).1 = .ok c ∧ (RequestCert attempt).2.1 = j + 1 ∧
      (RequestCert attempt).2.2 =
        (List.range j).map (fun k => ACMERetryDelay * 2 ^ k))
  ∧ (∀ e2, (∀ k, k < ACMERetries → ∃ e, attempt k = .error e) →
      attempt (ACMERetries - 1) = .error e2 →
      (RequestCert attempt).1 = .error e2 ∧
      (RequestCert attempt).2.1 = ACMERetries ∧
      (RequestCert attempt).2.2 =
        (List.range (ACMERetries - 1)).map (fun k => ACMERetryDelay * 2 ^ k)) := by
  cases h0 : attempt 0 with
  | ok c0 =>
    have hr : RequestCert attempt = (.ok c0, 1, []) := by
      unfold RequestCert ACMERetries rcLoop
      rw [h0]
    refine ⟨by rw [hr]; norm_num [ACMERetries], fun j c hj hprev hj' => ?_, fun e2 hall h2 => ?_⟩
    · have hj0 : j = 0 := by
        by_contra hne
        obtain ⟨e, he⟩ := hprev 0 (Nat.pos_of_ne_zero hne)
        rw [h0] at he
        exact absurd he (by simp)
      rw [hj0] at hj'
      rw [h0] at hj'
      cases hj'
      rw [hr, hj0]
      exact ⟨rfl, rfl, by simp [ACMERetryDelay, List.range_succ]⟩
    · obtain ⟨e, he⟩ := hall 0 (by decide)
      rw [h0] at he
      exact absurd he (by simp)
  | error e0 =>
    cases h1 : attempt 1 with
    | ok c1 =>
      have hr : RequestCert attempt = (.ok c1, 2, [15]) := by
        unfold RequestCert ACMERetries rcLoop
        rw [h0]
        show rcLoop attempt 2 1 30 [15] = _
        unfold rcLoop
        rw [h1]
      refine ⟨by rw [hr]; norm_num [ACMERetries], fun j c hj hprev hj' => ?_, fun e2 hall h2 => ?_⟩
      · have hj1 : j = 1 := by
          match j, hj with
          | 0, _ => rw [h0] at hj'; exact absurd hj' (by simp)
          | 1, _ => rfl
          | 2, _ =>
            obtain ⟨e, he⟩ := hprev 1 (by decide)
            rw [h1] at he
            exact absurd he (by simp)
        rw [hj1] at hj'
        rw [h1] at hj'
        cases hj'
        rw [hr, hj1]
        exact ⟨rfl, rfl, by simp [ACMERetryDelay, List.range_succ]⟩
      · obtain ⟨e, he⟩ := hall 1 (by decide)
        rw [h1] at he
        exact absurd he (by simp)
    | error e1 =>
      cases h2 : attempt 2 with
      | ok c2 =>
        have hr : RequestCert attempt = (.ok c2, 3, [15, 30]) := by
          unfold RequestCert ACMERetries rcLoop
          rw [h0]
          show rcLoop attempt 2 1 30 [15] = _
          unfold rcLoop
          rw [h1]
          show rcLoop attempt 1 2 60 [15, 30] = _
          unfold rcLoop
          rw [h2]
        refine ⟨by rw [hr]; norm_num [ACMERetries], fun j c hj hprev hj' => ?_,
          fun e2 hall hlast => ?_⟩
        · have hj2 : j = 2 := by
            match j, hj with
            | 0, _ => rw [h0] at hj'; exact absurd hj' (by simp)
            | 1, _ => rw [h1] at hj'; exact absurd hj' (by simp)
            | 2, _ => rfl
          rw [hj2] at hj'
          rw [h2] at hj'
          cases hj'
          rw [hr, hj2]
          exact ⟨rfl, rfl, by simp [ACMERetryDelay, List.range_succ]⟩
        · rw [show ACMERetries - 1 = 2 from rfl] at hlast
          rw [h2] at hlast
          exact absurd hlast (by simp)
      | error e2' =>
        have hr : RequestCert attempt = (.error e2', 3, [15, 30]) := by
          unfold RequestCert ACMERetries rcLoop
          rw [h0]
          show rcLoop attempt 2 1 30 [15] = _
          unfold rcLoop
          rw [h1]
          show rcLoop attempt 1 2 60 [15, 30] = _
          unfold rcLoop
          rw [h2]
        refine ⟨by rw [hr]; norm_num [ACMERetries], fun j c hj hprev hj' => ?_,
          fun e3 hall hlast => ?_⟩
        · exfalso
          match j, hj with
          | 0, _ => rw [h0] at hj'; exact absurd hj' (by simp)
          | 1, _ => rw [h1] at hj'; exact absurd hj' (by simp)
          | 2, _ => rw [h2] at hj'; exact absurd hj' (by simp)
        · rw [show ACMERetries - 1 = 2 from rfl] at hlast
          rw [h2] at hlast
          have : e2' = e3 := by simpa using hlast
          rw [hr, this]
          refine ⟨rfl, rfl, ?_⟩
          simp [ACMERetryDelay, ACMERetries, List.range_succ]

/-- Witness for C7: with every attempt failing, the loop performs
exactly 3 attempts, sleeps 15 s then 30 s, and reports the last error. -/
theorem RequestCert_retry_spec_witness :
    (RequestCert (fun i => .error ("fail" ++ toString i))).1 = .error "fail2" ∧
    (RequestCert (fun i => .error ("fail" ++ toString i))).2.1 = 3 ∧
    (RequestCert (fun i => .error ("fail" ++ toString i))).2.2 =
      (List.range 2).map (fun k => ACMERetryDelay * 2 ^ k) := by
  have h := (RequestCert_retry_spec (fun i => .error ("fail" ++ toString i))).2.2
    "fail2" (fun k _ => ⟨"fail" ++ toString k, rfl⟩) (by decide)
  exact ⟨h.1, h.2.1, h.2.2⟩

/-! ## PEM-vs-DER dispatch at the CSR-accepting interfaces

`CertCache.PutCSR`, `hostnameFromCSRHandler` and `certFromCSRHandler`
all run the same gate on the request body: a body containing the byte
sequence `"----"` must decode as a PEM block (whose payload replaces the
body), any other body is handed to the DER parser unchanged.
`pem.Decode` is abstracted as a function returning the first block's
payload, or `none` when no PEM block is found. -/

def dashes : List Nat := [45, 45, 45, 45]

/-- `bytes.Contains(hay, pat)`: `pat` occurs as a contiguous run. -/
def bytesContains (pat : List Nat) : List Nat → Bool
  | [] => pat.isEmpty
  | c :: rest => pat.isPrefixOf (c :: rest) || bytesContains pat rest

def pemGate (pemDecode : List Nat → Option (List Nat)) (body : List Nat) :
    Except String (List Nat) :=
  if bytesContains dashes body then
    match pemDecode body with
    | none => .error "Failed to decode PEM CSR"
    | some blockBytes => .ok blockBytes
  else .ok body

/-- C10: a body is treated as PEM exactly when it contains `"----"`: such
a body that yields no PEM block is rejected with the PEM-decode error
(whatever else it may be — in particular a valid DER CSR never reaches
the DER parser on this path), a decodable one is replaced by the block
payload, and a body without `"----"` is passed through unchanged. -/
theorem pemGate_spec (pemDecode : List Nat → Option (List Nat)) (body : List Nat) :
    (bytesContains dashes body = true → pemDecode body = none →
      pemGate pemDecode body = .error "Failed to decode PEM CSR")
  ∧ (bytesContains dashes body = true → ∀ blockBytes, pemDecode body = some blockBytes →
      pemGate pemDecode body = .ok blockBytes)
  ∧ (bytesContains dashes body = false → pemGate pemDecode body = .ok body) := by
  refine ⟨fun hin hdec => ?_, fun hin blockBytes hdec => ?_, fun hout => ?_⟩
  · unfold pemGate
    rw [hin]
    simp only [if_true]
    rw [hdec]
  · unfold pemGate
    rw [hin]
    simp only [if_true]
    rw [hdec]
  · unfold pemGate
    rw [hout]
    simp

/-- Witness for C10: a DER-looking body that contains `"----"` (bytes
45 45 45 45) but decodes as no PEM block is rejected. -/
theorem pemGate_spec_witness :
    pemGate (fun _ => none) [48, 130, 45, 45, 45, 45, 2, 1] =
      .error "Failed to decode PEM CSR" :=
  (pemGate_spec (fun _ => none) [48, 130, 45, 45, 45, 45, 2, 1]).1
    (by decide) rfl

end TLSPage
